import Mathlib

/-!
Shallow embedding of the tool-calling protocol engine of the
langgraph-llama-cpp-starter repository.

Python strings are modelled as `List Char`; Python functions that can raise
are modelled as `Except`- or `Option`-valued Lean functions; machine floats
that the claims exercise only at exactly representable values are modelled
as rationals.  Each definition is translated from the corresponding source
function (file and symbol named in its doc comment).
-/

namespace LlamaStarter

/-- Python strings, modelled as lists of characters. -/
abbrev Str := List Char

/-- ASCII whitespace recognised by Python's `str.strip` and the `\s` regex
class (space, tab, newline, carriage return, vertical tab, form feed). -/
def isPyWs (c : Char) : Bool :=
  c = ' ' || c = '\t' || c = '\n' || c = '\r' || c = '\x0b' || c = '\x0c'

/-- Model of Python `str.strip()`: drop whitespace from both ends. -/
def pyStrip (s : Str) : Str :=
  ((s.dropWhile isPyWs).reverse.dropWhile isPyWs).reverse

/-- Does `s` start with `pat` (case-sensitive)? -/
def lstartsWith : Str → Str → Bool
  | [], _ => true
  | _ :: _, [] => false
  | p :: ps, c :: cs => p = c && lstartsWith ps cs

/-- Does `s` start with `pat`, comparing characters case-insensitively?
Models a regex literal under `re.IGNORECASE`. -/
def lstartsWithCI : Str → Str → Bool
  | [], _ => true
  | _ :: _, [] => false
  | p :: ps, c :: cs => p.toLower = c.toLower && lstartsWithCI ps cs

/-- Index (counted from `k`) of the first occurrence of the literal `pat`
in `s`, case-sensitively; `none` if absent.  Models leftmost literal search. -/
def findLitFrom (pat : Str) : Str → Nat → Option Nat
  | [], k => if pat.isEmpty then some k else none
  | s@(_ :: t), k => if lstartsWith pat s then some k else findLitFrom pat t (k + 1)

/-- Index of the first occurrence of the literal `pat` in `s`. -/
def findLit (pat s : Str) : Option Nat := findLitFrom pat s 0

/-- Case-insensitive variant of `findLitFrom`. -/
def findCIFrom (pat : Str) : Str → Nat → Option Nat
  | [], k => if pat.isEmpty then some k else none
  | s@(_ :: t), k => if lstartsWithCI pat s then some k else findCIFrom pat t (k + 1)

/-- Index of the first case-insensitive occurrence of `pat` in `s`. -/
def findCI (pat s : Str) : Option Nat := findCIFrom pat s 0

/-- JSON values as decoded by Python's `json.loads`: `null`, booleans,
integers, floats (decimal literals, modelled exactly as rationals),
strings, arrays and objects (key/value lists, later duplicates win on
lookup, matching `dict` construction). -/
inductive JSON where
  | null
  | bool (b : Bool)
  | int (n : Int)
  | float (q : ℚ)
  | str (s : Str)
  | arr (xs : List JSON)
  | obj (kvs : List (Str × JSON))

/-- Python `dict` lookup for an object decoded from JSON text: the value of
the last binding of `key` (later duplicate keys overwrite earlier ones). -/
def jlookup (kvs : List (Str × JSON)) (key : Str) : Option JSON :=
  kvs.foldl (fun acc kv => if kv.1 = key then some kv.2 else acc) none

/-- Python truthiness of a decoded JSON value (`if tool_calls:`). -/
def pyTruthy : JSON → Bool
  | .null => false
  | .bool b => b
  | .int n => n ≠ 0
  | .float q => q ≠ 0
  | .str s => !s.isEmpty
  | .arr xs => !xs.isEmpty
  | .obj kvs => !kvs.isEmpty

/-- Whitespace skipped between JSON tokens by `json.loads`. -/
def jsonWs (c : Char) : Bool :=
  c = ' ' || c = '\t' || c = '\n' || c = '\r'

/-- Drop inter-token JSON whitespace. -/
def dropJWs (s : Str) : Str := s.dropWhile jsonWs

/-- Value of a hexadecimal digit, if `c` is one. -/
def hexVal (c : Char) : Option Nat :=
  if '0' ≤ c ∧ c ≤ '9' then some (c.toNat - '0'.toNat)
  else if 'a' ≤ c ∧ c ≤ 'f' then some (c.toNat - 'a'.toNat + 10)
  else if 'A' ≤ c ∧ c ≤ 'F' then some (c.toNat - 'A'.toNat + 10)
  else none

/-- Decimal digit test. -/
def isDigitCh (c : Char) : Bool := '0' ≤ c && c ≤ '9'

/-- Numeric value of a decimal digit character. -/
def chVal (c : Char) : Nat := c.toNat - '0'.toNat

/-- Fold a digit string onto an accumulator in base 10. -/
def readNumFrom (a : Nat) (ds : Str) : Nat :=
  ds.foldl (fun x c => x * 10 + chVal c) a

/-- Numeric value of a decimal digit string. -/
def readNum (ds : Str) : Nat := readNumFrom 0 ds

/-- Body of a JSON string after the opening quote, per `json.loads` in
strict mode: ends at an unescaped quote, forbids raw control characters,
decodes the standard escapes.  (A `\u` escape falling on a surrogate half
is an unpaired-codepoint corner not exercised here; `Char.ofNat` maps it
to the null character.)  Returns the decoded body and the rest after the
closing quote. -/
def parseStringBody : Nat → Str → Option (Str × Str)
  | 0, _ => none
  | _ + 1, [] => none
  | f + 1, c :: t =>
    if c = '"' then some ([], t)
    else if c = '\\' then
      match t with
      | [] => none
      | e :: t2 =>
        if e = '"' ∨ e = '\\' ∨ e = '/' then
          (parseStringBody f t2).map fun r => (e :: r.1, r.2)
        else if e = 'b' then (parseStringBody f t2).map fun r => ('\x08' :: r.1, r.2)
        else if e = 'f' then (parseStringBody f t2).map fun r => ('\x0c' :: r.1, r.2)
        else if e = 'n' then (parseStringBody f t2).map fun r => ('\n' :: r.1, r.2)
        else if e = 'r' then (parseStringBody f t2).map fun r => ('\r' :: r.1, r.2)
        else if e = 't' then (parseStringBody f t2).map fun r => ('\t' :: r.1, r.2)
        else if e = 'u' then
          match t2 with
          | h1 :: h2 :: h3 :: h4 :: t3 =>
            match hexVal h1, hexVal h2, hexVal h3, hexVal h4 with
            | some a, some b, some cc, some d =>
              (parseStringBody f t3).map fun r =>
                (Char.ofNat (((a * 16 + b) * 16 + cc) * 16 + d) :: r.1, r.2)
            | _, _, _, _ => none
          | _ => none
        else none
    else if c.toNat < 32 then none
    else (parseStringBody f t).map fun r => (c :: r.1, r.2)

/-- Integer part of a JSON number: `0`, or a nonzero digit followed by
digits (JSON forbids redundant leading zeros). -/
def parseIntPart : Str → Option (Nat × Str)
  | [] => none
  | c :: t =>
    if c = '0' then some (0, t)
    else if isDigitCh c then
      some (readNum (c :: t.takeWhile isDigitCh), t.dropWhile isDigitCh)
    else none

/-- A JSON number per the `json.loads` number grammar: optional sign,
integer part, optional fraction (a dot followed by at least one digit),
optional exponent.  Without fraction and exponent it decodes to a Python
`int`; otherwise to a float, whose decimal value is modelled exactly as a
rational (binary rounding of the host float is abstracted; the claims only
exercise integers). -/
def parseNumber (s : Str) : Option (JSON × Str) :=
  let signed : Bool × Str :=
    match s with
    | '-' :: t => (true, t)
    | _ => (false, s)
  match parseIntPart signed.2 with
  | none => none
  | some (ip, s2) =>
    let frac : Option (Str × Str) :=
      match s2 with
      | '.' :: t =>
        let ds := t.takeWhile isDigitCh
        if ds.isEmpty then none else some (ds, t.dropWhile isDigitCh)
      | _ => none
    let s3 := match frac with | some fr => fr.2 | none => s2
    let expo : Option (Int × Str) :=
      match s3 with
      | e :: t =>
        if e = 'e' ∨ e = 'E' then
          match t with
          | '+' :: t2 =>
            let ds := t2.takeWhile isDigitCh
            if ds.isEmpty then none
            else some ((readNum ds : Int), t2.dropWhile isDigitCh)
          | '-' :: t2 =>
            let ds := t2.takeWhile isDigitCh
            if ds.isEmpty then none
            else some (-(readNum ds : Int), t2.dropWhile isDigitCh)
          | _ =>
            let ds := t.takeWhile isDigitCh
            if ds.isEmpty then none
            else some ((readNum ds : Int), t.dropWhile isDigitCh)
        else none
      | [] => none
    let s4 := match expo with | some ex => ex.2 | none => s3
    match frac, expo with
    | none, none =>
      let v : Int := if signed.1 then -(ip : Int) else (ip : Int)
      some (.int v, s2)
    | _, _ =>
      let fds : Str := match frac with | some fr => fr.1 | none => []
      let mantissa : ℚ := (ip : ℚ) + (readNum fds : ℚ) / ((10 : ℚ) ^ fds.length)
      let ex : Int := match expo with | some e => e.1 | none => 0
      let mag : ℚ := mantissa * (10 : ℚ) ^ ex
      some (.float (if signed.1 then -mag else mag), s4)

mutual

/-- Recursive-descent model of `json.loads`' value scanner.  The fuel
argument only bounds recursion depth; every recursive call consumes at
least one input character first, so fuel `length + 1` never runs out. -/
def parseVal : Nat → Str → Option (JSON × Str)
  | 0, _ => none
  | f + 1, s =>
    match s with
    | [] => none
    | c :: t =>
      if lstartsWith ("null".toList) s then some (.null, s.drop 4)
      else if lstartsWith ("true".toList) s then some (.bool true, s.drop 4)
      else if lstartsWith ("false".toList) s then some (.bool false, s.drop 5)
      else if c = '"' then
        (parseStringBody (t.length + 1) t).map fun r => (.str r.1, r.2)
      else if c = '\x7b' then
        match dropJWs t with
        | '\x7d' :: r => some (.obj [], r)
        | t1 => (parseMembers f t1).map fun r => (.obj r.1, r.2)
      else if c = '[' then
        match dropJWs t with
        | ']' :: r => some (.arr [], r)
        | t1 => (parseItems f t1).map fun r => (.arr r.1, r.2)
      else parseNumber s

/-- Members of a nonempty JSON object: `"key" : value` pairs separated by
commas, terminated by a closing brace. -/
def parseMembers : Nat → Str → Option (List (Str × JSON) × Str)
  | 0, _ => none
  | f + 1, s =>
    match s with
    | '"' :: t =>
      match parseStringBody (t.length + 1) t with
      | none => none
      | some (key, r1) =>
        match dropJWs r1 with
        | ':' :: r2 =>
          match parseVal f (dropJWs r2) with
          | none => none
          | some (v, r3) =>
            match dropJWs r3 with
            | ',' :: r4 =>
              (parseMembers f (dropJWs r4)).map fun r => ((key, v) :: r.1, r.2)
            | '\x7d' :: r4 => some ([(key, v)], r4)
            | _ => none
        | _ => none
    | _ => none

/-- Items of a nonempty JSON array: values separated by commas, terminated
by a closing bracket. -/
def parseItems : Nat → Str → Option (List JSON × Str)
  | 0, _ => none
  | f + 1, s =>
    match parseVal f s with
    | none => none
    | some (v, r1) =>
      match dropJWs r1 with
      | ',' :: r2 => (parseItems f (dropJWs r2)).map fun r => (v :: r.1, r.2)
      | ']' :: r2 => some ([v], r2)
      | _ => none

end

/-- Model of `json.loads`: decode the whole input as one JSON value with
optional surrounding whitespace; `none` models `json.JSONDecodeError`. -/
def jloads (s : Str) : Option JSON :=
  let t := dropJWs s
  match parseVal (t.length + 1) t with
  | some (v, rest) => if (dropJWs rest).isEmpty then some v else none
  | none => none

/-! ## Extraction of tool calls (src/llama_tool_wrapper.py, parse_tool_calls) -/

/-- Python exceptions that the modelled functions can raise. -/
inductive PyErr where
  | indexError
  | typeError
deriving DecidableEq

/-- Does Python's `len()` accept the value (`str`, `list`, `dict` are
sized; `None`, booleans and numbers are not)? -/
def jsonSized : JSON → Bool
  | .str _ => true
  | .arr _ => true
  | .obj _ => true
  | _ => false

/-- Content of the first fenced block matched by the regex
`r'```json\s*(.*?)\s*```'` under `re.DOTALL | re.IGNORECASE`, already
`strip()`-ped as in the source.  The leftmost match of this pattern starts
at the first case-insensitive occurrence of the 7-character opener and, by
laziness of the group, ends at the first triple backtick after it; the two
`\s*` anchors plus the `.strip()` in the source make the extracted text the
trimmed span between the delimiters.  `none` when no opener occurs or no
closing fence follows the first opener (then no position matches at all,
since any later opener would itself supply a closing fence). -/
def findFenced (s : Str) : Option Str :=
  match findCI ("```json".toList) s with
  | none => none
  | some i =>
    let rest := s.drop (i + 7)
    match findLit ("```".toList) rest with
    | none => none
    | some j => some (pyStrip (rest.take j))

/-- Characters allowed by the `[^{}]` regex class. -/
def nonBrace (c : Char) : Bool := c ≠ '\x7b' && c ≠ '\x7d'

/-- Greedy Kleene star with backtracking over a character class: consume as
many `ok` characters as possible, then try the continuation, giving back
one character at a time on failure.  Successes are therefore produced in
the order a backtracking regex engine produces them (longest first). -/
def starThen (ok : Char → Bool) (cont : Str → Option Str) : Str → Option Str
  | [] => cont []
  | s@(c :: t) =>
    if ok c then
      match starThen ok cont t with
      | some r => some r
      | none => cont s
    else cont s

/-- The JSON key literal `"tool_calls"` (with its quotes). -/
def tcKeyLit : Str := "\"tool_calls\"".toList

/-- Tail of the loose pattern after the closing bracket: `[^{}]*\}`. -/
def looseTail2 (s : Str) : Option Str :=
  starThen nonBrace
    (fun s3 => match s3 with
      | '\x7d' :: r => some r
      | _ => none) s

/-- Middle of the loose pattern after the opening bracket: `[^\]]*\]`
followed by the tail. -/
def looseTail1 (s : Str) : Option Str :=
  starThen (fun c => c ≠ ']')
    (fun s2 => match s2 with
      | ']' :: r => looseTail2 r
      | _ => none) s

/-- Does the raw-JSON regex `r'\{[^{}]*"tool_calls"[^{}]*\[[^\]]*\][^{}]*\}'`
match starting exactly at the head of `s`?  Returns the suffix left after
the match found by greedy backtracking. -/
def looseMatchAt : Str → Option Str
  | '\x7b' :: t =>
    starThen nonBrace
      (fun s1 =>
        if lstartsWith tcKeyLit s1 then
          starThen nonBrace
            (fun s2 => match s2 with
              | '[' :: r => looseTail1 r
              | _ => none) (s1.drop 12)
        else none) t
  | _ => none

/-- Model of `re.search` for the raw-JSON pattern: try each start position
left to right and return the matched span (`match.group(0)`). -/
def looseSearch : Str → Option Str
  | [] => none
  | s@(_ :: t) =>
    match looseMatchAt s with
    | some rest => some (s.take (s.length - rest.length))
    | none => looseSearch t

/-- Shared tail of `parse_tool_calls`: `json.loads` the extracted text and
return `parsed["tool_calls"]` when the decode produced a dict containing
that key; otherwise the initial empty list (decode errors are caught).
Before returning, the source logs `len(parsed['tool_calls'])`
(src/llama_tool_wrapper.py line 173) inside a `try` that catches only
`json.JSONDecodeError`, so an unsized `tool_calls` value (`null`, a
number, a boolean) raises an uncaught `TypeError`, modelled as
`Except.error`. -/
def decodeCalls (t : Str) : Except PyErr JSON :=
  match jloads t with
  | some (.obj kvs) =>
    match jlookup kvs ("tool_calls".toList) with
    | some v => if jsonSized v then .ok v else .error .typeError
    | none => .ok (.arr [])
  | _ => .ok (.arr [])

/-- Model of `MyLlamaCppWithTools.parse_tool_calls`
(src/llama_tool_wrapper.py lines 148-179): try the first fenced
` ```json ` block; failing that, loose-scan for a raw object with a
`tool_calls` key; decode whichever matched and return its `tool_calls`
value, or the empty list.  Decode failures are caught, but the `len()`
logging call on an unsized `tool_calls` value raises a `TypeError` that
propagates (the `Except.error` channel); Python's recursion limit is
outside the model. -/
def parse_tool_calls (response_content : Str) : Except PyErr JSON :=
  match findFenced response_content with
  | some t => decodeCalls t
  | none =>
    match looseSearch response_content with
    | some t => decodeCalls t
    | none => .ok (.arr [])

/-! ## Numeric rendering (Python `str` of ints and floats) -/

/-- Digit characters pushed by `natReprAux`, via core's `Nat.digitChar`. -/
def natReprAux : Nat → Nat → Str → Str
  | 0, _, acc => acc
  | f + 1, n, acc =>
    if n = 0 then acc else natReprAux f (n / 10) (Nat.digitChar (n % 10) :: acc)

/-- Python `str` of a natural number: its decimal digits. -/
def natRepr (n : Nat) : Str := if n = 0 then ['0'] else natReprAux (n + 1) n []

/-- Python `str` of an integer. -/
def intRepr (n : Int) : Str :=
  if n < 0 then '-' :: natRepr n.natAbs else natRepr n.natAbs

/-- Python `str` of a float whose value is the rational `q`.  Whole-number
floats print as `d.0`, matching CPython (`str(5.0) = "5.0"`); rendering of
non-integral floats depends on binary rounding and shortest-round-trip
formatting, which the claims never exercise, so it is abstracted to an
exact decimal of numerator and denominator. -/
def floatRepr (q : ℚ) : Str :=
  if q.den = 1 then intRepr q.num ++ ".0".toList
  else intRepr q.num ++ "/".toList ++ natRepr q.den

/-! ## Capability registry and dispatcher
(src/tools_definition.py and src/llama_tool_wrapper.py, execute_tool_calls) -/

/-- A Python value returned by a tool function: the math tools return
floats, except that `divide_numbers` returns an error string on a zero
divisor. -/
inductive PyVal where
  | float (q : ℚ)
  | str (s : Str)

/-- Python `str()` of a tool result, as applied by `execute_tool_calls`. -/
def pyStrOf : PyVal → Str
  | .float q => floatRepr q
  | .str s => s

/-- A bound langchain tool: a name and an `invoke` that receives the parsed
arguments and either returns a value or raises (modelled as `Except.error`
carrying `str(e)`). -/
structure LCTool where
  name : Str
  invoke : JSON → Except Str PyVal

/-- Pydantic coercion of a JSON argument to a `float` field: ints and
floats are accepted.  (Coercion of numeric strings is a pydantic corner the
claims never exercise and is conservatively rejected here.) -/
def coerceFloat : JSON → Option ℚ
  | .int n => some (n : ℚ)
  | .float q => some q
  | _ => none

/-- Invocation of a two-float-argument tool through its pydantic schema
(`MathArgs` / `DivideArgs`): the arguments must be a mapping providing
coercible `a` and `b`; otherwise validation raises, which the dispatcher
will catch. -/
def mathToolInvoke (f : ℚ → ℚ → PyVal) (args : JSON) : Except Str PyVal :=
  match args with
  | .obj kvs =>
    match jlookup kvs ("a".toList), jlookup kvs ("b".toList) with
    | some ja, some jb =>
      match coerceFloat ja, coerceFloat jb with
      | some a, some b => .ok (f a b)
      | _, _ => .error ("validation error for arguments".toList)
    | _, _ => .error ("validation error for arguments".toList)
  | _ => .error ("validation error for arguments".toList)

/-- Tool `add_numbers` (src/tools_definition.py lines 45-48). -/
def add_numbers : LCTool :=
  ⟨"add_numbers".toList, mathToolInvoke fun a b => .float (a + b)⟩

/-- Tool `multiply_numbers` (src/tools_definition.py lines 50-53). -/
def multiply_numbers : LCTool :=
  ⟨"multiply_numbers".toList, mathToolInvoke fun a b => .float (a * b)⟩

/-- Tool `subtract_numbers` (src/tools_definition.py lines 55-58). -/
def subtract_numbers : LCTool :=
  ⟨"subtract_numbers".toList, mathToolInvoke fun a b => .float (a - b)⟩

/-- Tool `divide_numbers` (src/tools_definition.py lines 60-65): returns an
error string rather than raising on a zero divisor. -/
def divide_numbers : LCTool :=
  ⟨"divide_numbers".toList,
    mathToolInvoke fun a b =>
      if b = 0 then .str ("Error: Division by zero".toList) else .float (a / b)⟩

/-- The registry bound in src/tools_definition.py line 67. -/
def toolsList : List LCTool :=
  [add_numbers, multiply_numbers, subtract_numbers, divide_numbers]

/-- A parsed tool-call dictionary (the elements of the `List[Dict]` taken
by `execute_tool_calls`). -/
abbrev JObj := List (Str × JSON)

/-- Python `tool.name == tool_name` where `tool_name = call.get("name")`:
true only when the call carried a string equal to the tool's name
(comparison of a `str` with `None` or a non-string is `False`). -/
def nameEqPy (tn : Option JSON) (nm : Str) : Bool :=
  match tn with
  | some (.str s) => s = nm
  | _ => false

/-- Python `f"{x}"` for the values a call's `"name"` entry can hold.
Strings format as themselves and an absent name as `None`; container
rendering (never exercised by the claims) is abbreviated. -/
def fmtOpt : Option JSON → Str
  | none => "None".toList
  | some .null => "None".toList
  | some (.bool b) => if b then "True".toList else "False".toList
  | some (.int n) => intRepr n
  | some (.float q) => floatRepr q
  | some (.str s) => s
  | some (.arr _) => "[...]".toList
  | some (.obj _) => "\x7b...\x7d".toList

/-- A `ToolMessage` as produced by the dispatcher: content plus call id. -/
structure ToolMsg where
  content : Str
  tool_call_id : Str
deriving DecidableEq

/-- Dispatch of the `i`-th call of a batch (loop body of
`execute_tool_calls`, src/llama_tool_wrapper.py lines 192-225): resolve
`call.get("name")` by first exact match in the registry; invoke with
`call.get("arguments", {})`; package the stringified result, a caught
exception, or an unknown-tool notice, tagged `"{name}_{i}"` or
`"unknown_{i}"`. -/
def dispatchOne (available_tools : List LCTool) (i : Nat) (call : JObj) : ToolMsg :=
  match available_tools.find? (fun t => nameEqPy (jlookup call ("name".toList)) t.name) with
  | some t =>
    match t.invoke ((jlookup call ("arguments".toList)).getD (.obj [])) with
    | .ok r => ⟨pyStrOf r, fmtOpt (jlookup call ("name".toList)) ++ '_' :: natRepr i⟩
    | .error e =>
      ⟨"Error calling ".toList ++ fmtOpt (jlookup call ("name".toList)) ++ ": ".toList ++ e,
        fmtOpt (jlookup call ("name".toList)) ++ '_' :: natRepr i⟩
  | none =>
    ⟨"Unknown tool: ".toList ++ fmtOpt (jlookup call ("name".toList)),
      "unknown".toList ++ '_' :: natRepr i⟩

/-- The `enumerate` loop of `execute_tool_calls`, threading the positional
index starting at `k`. -/
def executeFrom (available_tools : List LCTool) : Nat → List JObj → List ToolMsg
  | _, [] => []
  | i, c :: cs => dispatchOne available_tools i c :: executeFrom available_tools (i + 1) cs

/-- Model of `MyLlamaCppWithTools.execute_tool_calls`
(src/llama_tool_wrapper.py lines 181-227): one result per call, in order,
indices from 0.  Totality models the contract that no exception escapes. -/
def execute_tool_calls (tool_calls : List JObj) (available_tools : List LCTool) :
    List ToolMsg :=
  executeFrom available_tools 0 tool_calls

/-! ## Conversation-loop node functions
(src/llama_tool_wrapper.py, improved_call_tools / improved_should_continue) -/

/-- The parsed `tool_calls` value as the `List[Dict]` the dispatcher
iterates: `none` when iterating it or calling `.get` on an element would
raise (`TypeError` / `AttributeError`) because the value was not a list of
dicts. -/
def asCallList : JSON → Option (List JObj)
  | .arr xs =>
    xs.mapM fun x =>
      match x with
      | .obj kvs => some kvs
      | _ => none
  | _ => none

/-- Model of `improved_should_continue` (src/llama_tool_wrapper.py lines
257-283).  Messages are modelled by their content strings; the iteration
cap is a Python int.  The cap check uses strict `>`; only past it is the
last message indexed (an `IndexError` on an empty history) and parsed
(a parse-time `TypeError` propagates). -/
def improved_should_continue (messages : List Str) (max_iterations : Int := 20) :
    Except PyErr String :=
  if (messages.length : Int) > max_iterations then .ok "end"
  else
    match messages.getLast? with
    | none => .error .indexError
    | some last_message =>
      match parse_tool_calls last_message with
      | .error e => .error e
      | .ok tool_calls =>
        .ok (if pyTruthy tool_calls then "tools" else "end")

/-- Model of `improved_call_tools` (src/llama_tool_wrapper.py lines
230-254): index the last message unconditionally, parse it (a parse-time
`TypeError` propagates), return no messages when nothing parsed,
otherwise dispatch the batch. -/
def improved_call_tools (messages : List Str) (tools : List LCTool) :
    Except PyErr (List ToolMsg) :=
  match messages.getLast? with
  | none => .error .indexError
  | some last_message =>
    match parse_tool_calls last_message with
    | .error e => .error e
    | .ok tool_calls =>
      if pyTruthy tool_calls then
        match asCallList tool_calls with
        | some calls => .ok (execute_tool_calls calls tools)
        | none => .error .typeError
      else .ok []

/-! ## Completion adapter (src/llm_wrapper.py, MyLlamaCpp._call) -/

/-- The fixed apology returned when the engine raises. -/
def apologyStr : Str :=
  "Sorry, I encountered an error processing your request.".toList

/-- Model of `MyLlamaCpp._call` (src/llm_wrapper.py lines 28-66).  The
generation engine is a black-box completion function that either yields
the full generated text (streaming only affects display; the streamed
chunks concatenate to the same text) or raises.  The wrapper strips the
text on success and fails closed to the apology string on any exception. -/
def MyLlamaCpp_call (prompt : Str) (engine : Str → Except Str Str) : Str :=
  match engine prompt with
  | .ok output_text => pyStrip output_text
  | .error _ => apologyStr

/-! ## Display cleanup (src/main.py, clean_response) -/

/-- The case-sensitive fence opener used by `clean_response`. -/
def fenceLit : Str := "```json".toList

/-- The literal `"tool_calls":` (quotes and colon) of the second cleanup
regex. -/
def tcColonLit : Str := "\"tool_calls\":".toList

/-- One pass of `re.sub(r'```json.*?```', '', content, flags=re.DOTALL)`:
remove each fenced block from its (case-sensitive) opener through the
first following triple backtick, scanning left to right and continuing
after each removal.  When an opener has no closing fence the tail is left
unchanged (no position can match). -/
def subFencedAux : Nat → Str → Str
  | 0, s => s
  | f + 1, s =>
    match findLit fenceLit s with
    | none => s
    | some i =>
      let rest := s.drop (i + 7)
      match findLit ("```".toList) rest with
      | none => s
      | some j => s.take i ++ subFencedAux f (rest.drop (j + 3))

/-- Removal of fenced json blocks (first substitution of `clean_response`). -/
def subFenced (s : Str) : Str := subFencedAux (s.length + 1) s

/-- One scan of `re.sub(r'"tool_calls":\s*\[.*?\]', '', ..., re.DOTALL)`:
at each occurrence of the key literal, greedy whitespace must be followed
by an opening bracket and a later closing bracket (the lazy group stops at
the first); on a match remove the span and continue after it, otherwise
resume scanning right after the occurrence's first character. -/
def subTCAux : Nat → Str → Str
  | 0, s => s
  | f + 1, s =>
    match findLit tcColonLit s with
    | none => s
    | some i =>
      let rest := s.drop (i + 13)
      let w := (rest.takeWhile isPyWs).length
      match rest.drop w with
      | '[' :: tail =>
        match findLit ("]".toList) tail with
        | some j => s.take i ++ subTCAux f (tail.drop (j + 1))
        | none => s.take (i + 1) ++ subTCAux f (s.drop (i + 1))
      | _ => s.take (i + 1) ++ subTCAux f (s.drop (i + 1))

/-- Removal of `"tool_calls": [...]` spans (second substitution). -/
def subToolCalls (s : Str) : Str := subTCAux (s.length + 1) s

/-- Is the next position a line end for `$` under `re.MULTILINE`: end of
input or a newline. -/
def lineEnd : Str → Bool
  | [] => true
  | c :: _ => c = '\n'

/-- Trailing `\s*$` of the stray-brace pattern with greedy backtracking:
the largest whitespace run after the brace whose end sits at a line end. -/
def strayTail (rest : Str) : Option Nat :=
  let w2 := (rest.takeWhile isPyWs).length
  (List.range (w2 + 1)).reverse.find? fun k => lineEnd (rest.drop k)

/-- Attempt of `^\s*[{}]\s*$` at a position where `^` holds: the greedy
leading `\s*` must end exactly at a brace (backtracking cannot stop inside
the whitespace run), then the trailing run must reach a line end.  Returns
the length of the matched span. -/
def strayAtt (s : Str) : Option Nat :=
  let w := (s.takeWhile isPyWs).length
  match s.drop w with
  | c :: rest =>
    if c = '\x7b' ∨ c = '\x7d' then
      match strayTail rest with
      | some k => some (w + 1 + k)
      | none => none
    else none
  | [] => none

/-- Scan of `re.sub(r'^\s*[{}]\s*$', '', ..., re.MULTILINE)`: attempt the
pattern at each position where `^` holds (start of input or after a
newline of the original text), remove matched spans, and continue after
them. -/
def subStrayAux : Nat → Bool → Str → Str
  | 0, _, s => s
  | f + 1, atStart, s =>
    match s with
    | [] => []
    | c :: t =>
      if atStart then
        match strayAtt s with
        | some len =>
          subStrayAux f ((s.take len).getLast? = some '\n') (s.drop len)
        | none => c :: subStrayAux f (c = '\n') t
      else c :: subStrayAux f (c = '\n') t

/-- Removal of stray single-brace lines (third substitution). -/
def subStray (s : Str) : Str := subStrayAux (s.length + 1) true s

/-- Model of `clean_response` (src/main.py lines 99-114): strip fenced
json blocks, `"tool_calls": [...]` spans and stray brace lines, stripping
whitespace after each pass; if nothing is left, fall back to the raw
content. -/
def clean_response (content : Str) : Str :=
  let c1 := pyStrip (subFenced content)
  let c2 := pyStrip (subToolCalls c1)
  let c3 := pyStrip (subStray c2)
  if c3.isEmpty then content else c3

/-! ## Concrete inputs used by counterexamples and witnesses -/

/-- A completion that is exactly one well-formed fenced tool-call block
(the round-trip example of the spec). -/
def c7Completion : Str :=
  "```json\n\x7b\"tool_calls\":[\x7b\"name\":\"add_numbers\",\"arguments\":\x7b\"a\":2,\"b\":3\x7d\x7d]\x7d\n```".toList

/-- The parsed call of `c7Completion`, as a call dictionary. -/
def c7Call : JObj :=
  [("name".toList, .str ("add_numbers".toList)),
   ("arguments".toList, .obj [("a".toList, .int 2), ("b".toList, .int 3)])]

/-- A completion whose only fenced block holds undecodable text. -/
def badFenced : Str := "```json\nnotjson\n```".toList

/-- A completion whose fenced block decodes to an object whose
`tool_calls` value is a number — unsized, so the source's `len()` logging
call raises `TypeError`. -/
def unsizedTC : Str := "```json\n\x7b\"tool_calls\": 5\x7d\n```".toList

/-- A content with an unclosed fence opener: no cleanup pass matches, so
the opener survives display cleaning. -/
def unclosedFence : Str := "hi ```json x".toList

/-- A content with a `tool_calls` key not followed by a bracketed array:
the second cleanup regex cannot match, so the key survives. -/
def bareKey : Str := "x \"tool_calls\": 5".toList

/-- A response that is exactly a well-formed unfenced JSON object with a
`tool_calls` key whose single call carries a nested bracket value. -/
def nestedUnfenced : Str :=
  "\x7b\"tool_calls\": [\x7b\"name\": \"f\", \"arguments\": \x7b\"xs\": [1, 2]\x7d\x7d]\x7d".toList

/-- A response that is exactly a flat unfenced JSON object with a
`tool_calls` key (no closing bracket inside the array). -/
def flatUnfenced : Str :=
  "\x7b\"tool_calls\": [\x7b\"name\": \"f\", \"arguments\": \x7b\x7d\x7d]\x7d".toList

/-- The single call carried by `nestedUnfenced`. -/
def nestedCallJSON : JSON :=
  .obj [("name".toList, .str ("f".toList)),
        ("arguments".toList, .obj [("xs".toList, .arr [.int 1, .int 2])])]

/-- The single call carried by `flatUnfenced`. -/
def flatCallJSON : JSON :=
  .obj [("name".toList, .str ("f".toList)), ("arguments".toList, .obj [])]

/-- A call naming no registered tool. -/
def unknownCall : JObj := [("name".toList, .str ("nope".toList))]

/-- A call to `add_numbers` with no arguments, making pydantic validation
raise inside the invocation. -/
def badArgsCall : JObj := [("name".toList, .str ("add_numbers".toList))]

/-- The suffix of a string after its last underscore. -/
def afterLastUnderscore (s : Str) : Str :=
  (s.reverse.takeWhile (fun c => c ≠ '_')).reverse

/-- A final assistant message that is nothing but a fenced tool-call block
(what the model emits when it requests a call). -/
def c9RawToolCall : Str :=
  "```json\n\x7b\"tool_calls\": [\x7b\"name\": \"add_numbers\", \"arguments\": \x7b\"a\": 2, \"b\": 3\x7d\x7d]\x7d\n```".toList

/-- Left strip: the whitespace-dropping half of `pyStrip`. -/
def stripLP (s : Str) : Str := s.dropWhile isPyWs

/-- Right strip: remove the trailing whitespace run. -/
def stripRP (s : Str) : Str := (s.reverse.dropWhile isPyWs).reverse

/-! ## Claim theorems -/

/-- C1, counterexample: with the message count exactly at the default cap
of 20 and a latest message that parses to one CallRequest,
`improved_should_continue` routes to "tools", not "end" — the cap check
uses strict `>`, so "at" the cap does not terminate. -/
theorem c1_cap_counterexample :
    improved_should_continue (List.replicate 20 c7Completion) 20 = .ok "tools" ∧
    parse_tool_calls c7Completion = .ok (.arr [.obj c7Call]) ∧
    (List.replicate 20 c7Completion).length = 20 := by
  exact ⟨rfl, rfl, rfl⟩

/-- C1 (amended): for every conversation state whose message count is
strictly above `max_iterations`, `improved_should_continue` returns the
terminal route "end" regardless of what the latest message parses to. -/
theorem c1_cap_strictly_above_ends (messages : List Str) (max_iterations : Int)
    (h : (messages.length : Int) > max_iterations) :
    improved_should_continue messages max_iterations = .ok "end" := by
  unfold improved_should_continue
  rw [if_pos h]

/-- Witness for `c1_cap_strictly_above_ends` at a concrete state. -/
theorem c1_cap_strictly_above_ends_witness :
    (([ "hi".toList ] : List Str).length : Int) > 0 ∧
    improved_should_continue ["hi".toList] 0 = .ok "end" :=
  ⟨by decide, c1_cap_strictly_above_ends ["hi".toList] 0 (by decide)⟩

/-- C2, failing input: the claim that `parse_tool_calls` never raises is
wrong of the source.  At a fenced block decoding to `\x7b"tool_calls": 5\x7d`
the logging call `len(parsed['tool_calls'])` (src/llama_tool_wrapper.py
line 173) raises a `TypeError` that the `except json.JSONDecodeError`
clause does not catch.  Absent or undecodable structured content, by
contrast, does yield the empty sequence as claimed. -/
theorem c2_parse_raises_type_error :
    parse_tool_calls unsizedTC = .error .typeError ∧
    parse_tool_calls badFenced = .ok (.arr []) ∧
    parse_tool_calls ("hello there".toList) = .ok (.arr []) :=
  ⟨rfl, rfl, rfl⟩

/-- C6: whenever the underlying generation engine raises during `_call`,
the adapter returns the fixed apology string instead of propagating. -/
theorem c6_call_fails_closed (prompt : Str) (engine : Str → Except Str Str)
    (e : Str) (h : engine prompt = .error e) :
    MyLlamaCpp_call prompt engine = apologyStr := by
  unfold MyLlamaCpp_call
  rw [h]

/-- Witness for `c6_call_fails_closed` at a concrete failing engine. -/
theorem c6_call_fails_closed_witness :
    MyLlamaCpp_call ("p".toList) (fun _ => .error ("boom".toList)) = apologyStr :=
  c6_call_fails_closed ("p".toList) (fun _ => .error ("boom".toList))
    ("boom".toList) rfl

/-- C8: below the iteration cap, a latest message on which
`parse_tool_calls` returns normally with zero tool calls routes the
conversation to the terminal "end".  (Messages on which the parse raises
— the C2 bug — do not yield zero tool calls; they propagate the error.) -/
theorem c8_no_calls_ends (messages : List Str) (max_iterations : Int)
    (last : Str) (tc : JSON) (hlast : messages.getLast? = some last)
    (hlen : (messages.length : Int) < max_iterations)
    (hparse : parse_tool_calls last = .ok tc)
    (hfalsy : pyTruthy tc = false) :
    improved_should_continue messages max_iterations = .ok "end" := by
  unfold improved_should_continue
  rw [if_neg (by omega : ¬ (messages.length : Int) > max_iterations), hlast]
  show (match parse_tool_calls last with
    | .error e => Except.error e
    | .ok tool_calls =>
      Except.ok (if pyTruthy tool_calls = true then "tools" else "end")) =
    Except.ok "end"
  rw [hparse]
  show Except.ok (if pyTruthy tc = true then "tools" else "end") = Except.ok "end"
  rw [hfalsy]
  simp

/-- Witness for `c8_no_calls_ends` at a concrete state. -/
theorem c8_no_calls_ends_witness :
    improved_should_continue ["no calls here".toList] 20 = .ok "end" :=
  c8_no_calls_ends ["no calls here".toList] 20 ("no calls here".toList)
    (.arr []) rfl (by decide) rfl rfl

/-- The decode tail can only raise `TypeError`, never `IndexError`. -/
theorem decodeCalls_ne_indexError (t : Str) :
    decodeCalls t ≠ .error .indexError := by
  unfold decodeCalls
  cases hj : jloads t with
  | none => simp
  | some v =>
    cases v with
    | obj kvs =>
      show ¬ (match jlookup kvs ("tool_calls".toList) with
        | some v =>
          if jsonSized v = true then Except.ok v else Except.error PyErr.typeError
        | none => Except.ok (JSON.arr [])) = Except.error PyErr.indexError
      cases hl : jlookup kvs ("tool_calls".toList) with
      | none => simp
      | some w =>
        by_cases hs : jsonSized w
        · simp [hs]
        · simp [hs]
    | null => simp
    | bool b => simp
    | int n => simp
    | float q => simp
    | str s => simp
    | arr xs => simp

/-- The parse never raises `IndexError` (its only raise is the `TypeError`
of the `len()` logging call). -/
theorem parse_tool_calls_ne_indexError (s : Str) :
    parse_tool_calls s ≠ .error .indexError := by
  unfold parse_tool_calls
  cases hf : findFenced s with
  | some t => exact decodeCalls_ne_indexError t
  | none =>
    cases hl : looseSearch s with
    | some t => exact decodeCalls_ne_indexError t
    | none => simp

/-- C10: on an empty message list both node functions raise `IndexError`
(with a non-negative cap, `improved_should_continue` reaches the indexing);
with at least one message the indexing never fails. -/
theorem c10_empty_messages_index_error (max_iterations : Int)
    (tools : List LCTool) (hmi : 0 ≤ max_iterations) :
    improved_should_continue [] max_iterations = .error .indexError ∧
    improved_call_tools [] tools = .error .indexError ∧
    ∀ messages : List Str, messages ≠ [] →
      improved_should_continue messages max_iterations ≠ .error .indexError ∧
      improved_call_tools messages tools ≠ .error .indexError := by
  refine ⟨?_, rfl, ?_⟩
  · unfold improved_should_continue
    rw [if_neg (by simpa using by omega : ¬ ((([] : List Str)).length : Int) > max_iterations)]
    rfl
  · intro messages hne
    obtain ⟨last, hlast⟩ : ∃ l, messages.getLast? = some l := by
      cases h : messages.getLast? with
      | some l => exact ⟨l, rfl⟩
      | none => exact absurd (List.getLast?_eq_none_iff.mp h) hne
    constructor
    · unfold improved_should_continue
      by_cases hc : (messages.length : Int) > max_iterations
      · rw [if_pos hc]; intro h; cases h
      · rw [if_neg hc, hlast]
        show (match parse_tool_calls last with
          | .error e => Except.error e
          | .ok tool_calls =>
            Except.ok (if pyTruthy tool_calls = true then "tools" else "end")) ≠
          Except.error PyErr.indexError
        cases hp : parse_tool_calls last with
        | error e =>
          have hne := parse_tool_calls_ne_indexError last
          rw [hp] at hne
          have he : e ≠ PyErr.indexError := fun heq => hne (by rw [heq])
          intro h
          exact he (Except.error.inj h)
        | ok tc => intro h; cases h
    · unfold improved_call_tools
      rw [hlast]
      show (match parse_tool_calls last with
        | .error e => Except.error e
        | .ok tool_calls =>
          if pyTruthy tool_calls = true then
            match asCallList tool_calls with
            | some calls => Except.ok (execute_tool_calls calls tools)
            | none => Except.error PyErr.typeError
          else Except.ok []) ≠ Except.error PyErr.indexError
      cases hp : parse_tool_calls last with
      | error e =>
        have hne := parse_tool_calls_ne_indexError last
        rw [hp] at hne
        have he : e ≠ PyErr.indexError := fun heq => hne (by rw [heq])
        intro h
        exact he (Except.error.inj h)
      | ok tc =>
        show (if pyTruthy tc = true then
            match asCallList tc with
            | some calls => Except.ok (execute_tool_calls calls tools)
            | none => Except.error PyErr.typeError
          else Except.ok []) ≠ Except.error PyErr.indexError
        by_cases ht : pyTruthy tc = true
        · rw [if_pos ht]
          cases asCallList tc <;> intro h <;> cases h
        · rw [if_neg ht]; intro h; cases h

/-- Witness for `c10_empty_messages_index_error` at the default cap and
registry. -/
theorem c10_empty_messages_index_error_witness :
    improved_should_continue [] 20 = .error .indexError ∧
    improved_call_tools [] toolsList = .error .indexError ∧
    improved_should_continue ["hi".toList] 20 ≠ .error .indexError := by
  obtain ⟨a, b, c⟩ := c10_empty_messages_index_error 20 toolsList (by decide)
  exact ⟨a, b, (c ["hi".toList] (by simp)).1⟩

/-! ### Call-id arithmetic: decimal indices decode back, so ids are unique -/

/-- Value of a decimal digit of `Nat.digitChar`, bounded form. -/
theorem chVal_digitChar_fin : ∀ d : Fin 10, chVal (Nat.digitChar d.val) = d.val := by
  decide

/-- Value of a decimal digit of `Nat.digitChar`. -/
theorem chVal_digitChar (d : Nat) (h : d < 10) : chVal (Nat.digitChar d) = d :=
  chVal_digitChar_fin ⟨d, h⟩

/-- Digit characters are never underscores, bounded form. -/
theorem digitChar_ne_underscore_fin : ∀ d : Fin 10, Nat.digitChar d.val ≠ '_' := by
  decide

/-- Pulling the accumulator out of `natReprAux`. -/
theorem natReprAux_append : ∀ (f n : Nat) (acc : Str),
    natReprAux f n acc = natReprAux f n [] ++ acc := by
  intro f
  induction f with
  | zero => intro n acc; rfl
  | succ f ih =>
    intro n acc
    by_cases h : n = 0
    · simp [natReprAux, h]
    · rw [natReprAux, natReprAux, if_neg h, if_neg h, ih (n / 10), ih (n / 10) [Nat.digitChar (n % 10)]]
      simp

/-- Folding digits is compositional over append. -/
theorem readNumFrom_append (a : Nat) (xs ys : Str) :
    readNumFrom a (xs ++ ys) = readNumFrom (readNumFrom a xs) ys :=
  List.foldl_append _ _ _ _

/-- The digits written by `natReprAux` with sufficient fuel read back to the
number. -/
theorem readNum_natReprAux : ∀ (f n : Nat), n ≤ f →
    readNum (natReprAux f n []) = n := by
  intro f
  induction f with
  | zero => intro n h; interval_cases n; rfl
  | succ f ih =>
    intro n h
    by_cases h0 : n = 0
    · simp [natReprAux, h0, readNum, readNumFrom]
    · rw [natReprAux, if_neg h0, natReprAux_append]
      unfold readNum
      rw [readNumFrom_append]
      have hdiv : n / 10 ≤ f := by omega
      have := ih (n / 10) hdiv
      unfold readNum at this
      rw [this]
      show (n / 10) * 10 + chVal (Nat.digitChar (n % 10)) = n
      rw [chVal_digitChar (n % 10) (Nat.mod_lt n (by omega))]
      omega

/-- Python's decimal rendering of a natural number reads back to it. -/
theorem readNum_natRepr (n : Nat) : readNum (natRepr n) = n := by
  by_cases h : n = 0
  · subst h; rfl
  · rw [natRepr, if_neg h]
    exact readNum_natReprAux (n + 1) n (by omega)

/-- Decimal rendering is injective. -/
theorem natRepr_inj {m n : Nat} (h : natRepr m = natRepr n) : m = n := by
  have := congrArg readNum h
  rwa [readNum_natRepr, readNum_natRepr] at this

/-- No character of `natReprAux` output is an underscore (given the
accumulator has none). -/
theorem natReprAux_no_underscore : ∀ (f n : Nat) (acc : Str),
    (∀ c ∈ acc, c ≠ '_') → ∀ c ∈ natReprAux f n acc, c ≠ '_' := by
  intro f
  induction f with
  | zero => intro n acc hacc; exact hacc
  | succ f ih =>
    intro n acc hacc c hc
    by_cases h0 : n = 0
    · rw [natReprAux, if_pos h0] at hc
      exact hacc c hc
    · rw [natReprAux, if_neg h0] at hc
      refine ih (n / 10) _ ?_ c hc
      intro c' hc'
      rcases List.mem_cons.mp hc' with h | h
      · subst h
        exact digitChar_ne_underscore_fin ⟨n % 10, Nat.mod_lt n (by omega)⟩
      · exact hacc c' h

/-- No character of a decimal rendering is an underscore. -/
theorem natRepr_no_underscore (n : Nat) : ∀ c ∈ natRepr n, c ≠ '_' := by
  intro c hc
  by_cases h : n = 0
  · rw [natRepr, if_pos h] at hc
    simp at hc
    subst hc
    decide
  · rw [natRepr, if_neg h] at hc
    exact natReprAux_no_underscore (n + 1) n [] (by simp) c hc

/-- takeWhile over an append whose left part satisfies the test and whose
junction character fails it. -/
theorem takeWhile_append_sat {p : Char → Bool} :
    ∀ (l : Str) (x : Char) (r : Str), (∀ c ∈ l, p c = true) → p x = false →
      List.takeWhile p (l ++ x :: r) = l := by
  intro l
  induction l with
  | nil => intro x r _ hx; simp [List.takeWhile, hx]
  | cons c t ih =>
    intro x r hl hx
    have hc : p c = true := hl c (by simp)
    rw [List.cons_append, List.takeWhile_cons_of_pos hc,
      ih x r (fun c' hc' => hl c' (by simp [hc'])) hx]

/-- Appending `_` and an underscore-free suffix is inverted by
`afterLastUnderscore`. -/
theorem afterLastUnderscore_append (p d : Str) (hd : ∀ c ∈ d, c ≠ '_') :
    afterLastUnderscore (p ++ '_' :: d) = d := by
  unfold afterLastUnderscore
  have h1 : (p ++ '_' :: d).reverse = d.reverse ++ '_' :: p.reverse := by
    rw [List.reverse_append]
    simp
  rw [h1, takeWhile_append_sat d.reverse '_' p.reverse ?_ (by decide)]
  · simp
  · intro c hc
    simp only [List.mem_reverse] at hc
    simpa using hd c hc

/-- Every call-id issued by `dispatchOne` is some tag followed by an
underscore and the decimal index. -/
theorem dispatchOne_id (available_tools : List LCTool) (i : Nat) (call : JObj) :
    ∃ p, (dispatchOne available_tools i call).tool_call_id = p ++ '_' :: natRepr i := by
  unfold dispatchOne
  split
  · split
    · exact ⟨fmtOpt (jlookup call ("name".toList)), rfl⟩
    · exact ⟨fmtOpt (jlookup call ("name".toList)), rfl⟩
  · exact ⟨"unknown".toList, rfl⟩

/-- The decimal index of a call-id decodes back to the loop index. -/
theorem dispatchOne_id_inj {available_tools : List LCTool} {i j : Nat}
    {ci cj : JObj}
    (h : (dispatchOne available_tools i ci).tool_call_id =
      (dispatchOne available_tools j cj).tool_call_id) : i = j := by
  obtain ⟨p, hp⟩ := dispatchOne_id available_tools i ci
  obtain ⟨q, hq⟩ := dispatchOne_id available_tools j cj
  rw [hp, hq] at h
  have := congrArg afterLastUnderscore h
  rw [afterLastUnderscore_append p _ (natRepr_no_underscore i),
    afterLastUnderscore_append q _ (natRepr_no_underscore j)] at this
  exact natRepr_inj this

/-- Length preservation of the dispatch loop. -/
theorem executeFrom_length (available_tools : List LCTool) :
    ∀ (k : Nat) (calls : List JObj),
      (executeFrom available_tools k calls).length = calls.length := by
  intro k calls
  induction calls generalizing k with
  | nil => rfl
  | cons c cs ih => simp [executeFrom, ih]

/-- Indexed characterisation of the dispatch loop. -/
theorem executeFrom_getElem? (available_tools : List LCTool) :
    ∀ (calls : List JObj) (k i : Nat),
      (executeFrom available_tools k calls)[i]? =
        (calls[i]?).map (dispatchOne available_tools (k + i)) := by
  intro calls
  induction calls with
  | nil => intro k i; simp [executeFrom]
  | cons c cs ih =>
    intro k i
    cases i with
    | zero => simp [executeFrom]
    | succ i =>
      simp only [executeFrom, List.getElem?_cons_succ]
      rw [ih (k + 1) i]
      have h : k + 1 + i = k + (i + 1) := by omega
      rw [h]

/-- Every id in the tail of the dispatch loop comes from an index at least
`k`. -/
theorem executeFrom_ids_mem (available_tools : List LCTool) :
    ∀ (calls : List JObj) (k : Nat) (y : Str),
      y ∈ (executeFrom available_tools k calls).map ToolMsg.tool_call_id →
      ∃ m c, k ≤ m ∧ y = (dispatchOne available_tools m c).tool_call_id := by
  intro calls
  induction calls with
  | nil => intro k y h; simp [executeFrom] at h
  | cons c cs ih =>
    intro k y h
    simp only [executeFrom, List.map_cons, List.mem_cons] at h
    rcases h with h | h
    · exact ⟨k, c, le_refl k, h⟩
    · obtain ⟨m, c', hm, hy⟩ := ih (k + 1) y h
      exact ⟨m, c', by omega, hy⟩

/-- The ids issued by the dispatch loop are pairwise distinct: their
decimal index suffixes decode to the strictly increasing loop indices. -/
theorem executeFrom_ids_pairwise (available_tools : List LCTool) :
    ∀ (calls : List JObj) (k : Nat),
      List.Pairwise (fun a b => a ≠ b)
        ((executeFrom available_tools k calls).map ToolMsg.tool_call_id) := by
  intro calls
  induction calls with
  | nil => intro k; simp [executeFrom]
  | cons c cs ih =>
    intro k
    simp only [executeFrom, List.map_cons]
    refine List.Pairwise.cons ?_ (ih (k + 1))
    intro y hy heq
    obtain ⟨m, c', hm, hyid⟩ := executeFrom_ids_mem available_tools cs (k + 1) y hy
    rw [hyid] at heq
    have : k = m := dispatchOne_id_inj heq
    omega

/-- C4: `execute_tool_calls` is total (no exception propagates).  A call
whose name matches no registered tool yields a result with call-id
`unknown_{i}` whose content names the unresolved tool, and a call whose
invocation raises yields a result with call-id `{name}_{i}` whose content
carries the capability name and the failure description. -/
theorem c4_dispatch_error_results (tool_calls : List JObj)
    (available_tools : List LCTool) (i : Nat) (call : JObj)
    (hcall : tool_calls[i]? = some call) :
    (available_tools.find?
        (fun t => nameEqPy (jlookup call ("name".toList)) t.name) = none →
      (execute_tool_calls tool_calls available_tools)[i]? =
        some ⟨"Unknown tool: ".toList ++ fmtOpt (jlookup call ("name".toList)),
          "unknown".toList ++ '_' :: natRepr i⟩) ∧
    (∀ t e, available_tools.find?
        (fun t => nameEqPy (jlookup call ("name".toList)) t.name) = some t →
      t.invoke ((jlookup call ("arguments".toList)).getD (.obj [])) = .error e →
      (execute_tool_calls tool_calls available_tools)[i]? =
        some ⟨"Error calling ".toList ++ fmtOpt (jlookup call ("name".toList)) ++
            ": ".toList ++ e,
          fmtOpt (jlookup call ("name".toList)) ++ '_' :: natRepr i⟩) := by
  have hidx : (execute_tool_calls tool_calls available_tools)[i]? =
      some (dispatchOne available_tools i call) := by
    unfold execute_tool_calls
    rw [executeFrom_getElem? available_tools tool_calls 0 i, hcall]
    simp
  constructor
  · intro hfind
    rw [hidx]
    unfold dispatchOne
    rw [hfind]
  · intro t e hfind hinv
    rw [hidx]
    unfold dispatchOne
    rw [hfind]
    show some (match t.invoke ((jlookup call ("arguments".toList)).getD (.obj [])) with
      | .ok r => (⟨pyStrOf r,
          fmtOpt (jlookup call ("name".toList)) ++ '_' :: natRepr i⟩ : ToolMsg)
      | .error e =>
        ⟨"Error calling ".toList ++ fmtOpt (jlookup call ("name".toList)) ++
            ": ".toList ++ e,
          fmtOpt (jlookup call ("name".toList)) ++ '_' :: natRepr i⟩) = _
    rw [hinv]

/-- Witness for `c4_dispatch_error_results`: one unresolved name and one
raising invocation against the real registry. -/
theorem c4_dispatch_error_results_witness :
    (execute_tool_calls [unknownCall, badArgsCall] toolsList)[0]? =
      some ⟨"Unknown tool: nope".toList, "unknown_0".toList⟩ ∧
    (execute_tool_calls [unknownCall, badArgsCall] toolsList)[1]? =
      some ⟨"Error calling add_numbers: validation error for arguments".toList,
        "add_numbers_1".toList⟩ :=
  ⟨(c4_dispatch_error_results [unknownCall, badArgsCall] toolsList 0
      unknownCall rfl).1 rfl,
   (c4_dispatch_error_results [unknownCall, badArgsCall] toolsList 1
      badArgsCall rfl).2 add_numbers
      ("validation error for arguments".toList) rfl rfl⟩

/-- C5: dispatch produces exactly one CallResult per request (the batch has
the same length and the i-th result is the dispatch of the i-th request, so
nothing is dropped or reordered), and the call-ids within the batch are
pairwise distinct thanks to the positional index suffix. -/
theorem c5_dispatch_batch_invariants (tool_calls : List JObj)
    (available_tools : List LCTool) :
    (execute_tool_calls tool_calls available_tools).length = tool_calls.length ∧
    (∀ i : Nat, (execute_tool_calls tool_calls available_tools)[i]? =
      (tool_calls[i]?).map (dispatchOne available_tools i)) ∧
    List.Pairwise (fun a b => a ≠ b)
      ((execute_tool_calls tool_calls available_tools).map ToolMsg.tool_call_id) := by
  refine ⟨executeFrom_length available_tools 0 tool_calls, ?_, ?_⟩
  · intro i
    unfold execute_tool_calls
    rw [executeFrom_getElem? available_tools tool_calls 0 i]
    simp
  · exact executeFrom_ids_pairwise available_tools tool_calls 0

/-- C3, counterexample: `nestedUnfenced` is exactly a well-formed unfenced
JSON object with a `tool_calls` key holding one call with a nested bracket
value, yet `parse_tool_calls` returns the empty sequence, not its tool
calls — the loose regex stops the array at the first closing bracket, the
truncated span fails to decode, and no whole-response decode is attempted. -/
theorem c3_unfenced_nested_counterexample :
    jloads nestedUnfenced =
      some (.obj [("tool_calls".toList, .arr [nestedCallJSON])]) ∧
    parse_tool_calls nestedUnfenced = .ok (.arr []) ∧
    JSON.arr [] ≠ JSON.arr [nestedCallJSON] := by
  refine ⟨rfl, rfl, ?_⟩
  intro h
  injection h with h2
  exact absurd h2 (by simp)

/-- C3 (amended): the extraction policy stops at the first success of
(1) the first fenced json block — when one matches, its decode alone
decides the result — then (2) the loose scan for an inline `tool_calls`
object, whose matched span alone decides the result.  There is no step
that decodes the entire trimmed response: an exactly well-formed unfenced
`tool_calls` object is recovered when its array holds no nested closing
bracket (`flatUnfenced`), while nested bracket values make the loose span
truncate and the parser return the empty sequence (`nestedUnfenced`). -/
theorem c3_extraction_policy :
    (∀ s t, findFenced s = some t → parse_tool_calls s = decodeCalls t) ∧
    (∀ s t, findFenced s = none → looseSearch s = some t →
      parse_tool_calls s = decodeCalls t) ∧
    parse_tool_calls flatUnfenced = .ok (.arr [flatCallJSON]) ∧
    parse_tool_calls nestedUnfenced = .ok (.arr []) := by
  refine ⟨?_, ?_, rfl, rfl⟩
  · intro s t hf
    unfold parse_tool_calls
    rw [hf]
  · intro s t hf hls
    unfold parse_tool_calls
    rw [hf, hls]

/-- Witness for `c3_extraction_policy`: the badly fenced response is
decided by its fenced content alone. -/
theorem c3_extraction_policy_witness :
    parse_tool_calls badFenced = decodeCalls ("notjson".toList) :=
  c3_extraction_policy.1 badFenced ("notjson".toList) rfl

/-- C7: the spec's round trip.  The fenced completion parses to exactly one
CallRequest named `add_numbers` with arguments a=2, b=3, and dispatching it
against the registry yields one CallResult with stringified content "5.0"
and call-id "add_numbers_0". -/
theorem c7_round_trip :
    parse_tool_calls c7Completion = .ok (.arr [.obj c7Call]) ∧
    execute_tool_calls [c7Call] toolsList =
      [⟨"5.0".toList, "add_numbers_0".toList⟩] := by
  constructor
  · rfl
  · have h : execute_tool_calls [c7Call] toolsList =
        [⟨floatRepr (((2 : Int) : ℚ) + ((3 : Int) : ℚ)), "add_numbers_0".toList⟩] := rfl
    rw [h]
    norm_num
    decide

/-! ### Lemmas about stripping, literal search and the cleanup passes -/

/-- Characters of a stripped string come from the string. -/
theorem mem_pyStrip {c : Char} {s : Str} (h : c ∈ pyStrip s) : c ∈ s := by
  unfold pyStrip at h
  rw [List.mem_reverse] at h
  have h2 := (List.dropWhile_sublist _).subset h
  rw [List.mem_reverse] at h2
  exact (List.dropWhile_sublist _).subset h2

/-- Dropping a satisfied prefix twice is dropping it once. -/
theorem dropWhile_idem (p : Char → Bool) (l : Str) :
    (l.dropWhile p).dropWhile p = l.dropWhile p := by
  induction l with
  | nil => rfl
  | cons c t ih =>
    by_cases h : p c
    · simp only [List.dropWhile_cons, h, if_true]
      exact ih
    · simp [List.dropWhile_cons, h]

/-- The head surviving `dropWhile` fails the test. -/
theorem head_dropWhile_false {p : Char → Bool} :
    ∀ {l : Str} {c : Char} {t : Str}, l.dropWhile p = c :: t → p c = false := by
  intro l
  induction l with
  | nil => intro c t h; cases h
  | cons a l' ih =>
    intro c t h
    by_cases hp : p a
    · rw [List.dropWhile_cons, if_pos hp] at h
      exact ih h
    · rw [List.dropWhile_cons, if_neg hp] at h
      cases h
      simpa using hp

/-- The right strip is a prefix of the string. -/
theorem stripRP_prefix (s : Str) : ∃ t, s = stripRP s ++ t := by
  refine ⟨(s.reverse.takeWhile isPyWs).reverse, ?_⟩
  unfold stripRP
  rw [← List.reverse_append, List.takeWhile_append_dropWhile, List.reverse_reverse]

/-- Right stripping is idempotent. -/
theorem stripRP_idem (s : Str) : stripRP (stripRP s) = stripRP s := by
  unfold stripRP
  rw [List.reverse_reverse, dropWhile_idem]

/-- Left stripping after a left-then-right strip changes nothing. -/
theorem stripLP_stripRP (s : Str) :
    stripLP (stripRP (stripLP s)) = stripRP (stripLP s) := by
  cases hm : stripRP (stripLP s) with
  | nil => rfl
  | cons c t =>
    obtain ⟨r, hr⟩ := stripRP_prefix (stripLP s)
    rw [hm] at hr
    have hr2 : s.dropWhile isPyWs = c :: (t ++ r) := by
      rw [← List.cons_append]
      exact hr
    have hc : isPyWs c = false := head_dropWhile_false hr2
    simp [stripLP, List.dropWhile_cons, hc]

/-- Python's strip is idempotent. -/
theorem pyStrip_idem (s : Str) : pyStrip (pyStrip s) = pyStrip s := by
  show stripRP (stripLP (stripRP (stripLP s))) = stripRP (stripLP s)
  rw [stripLP_stripRP, stripRP_idem]

/-- A literal whose first character is absent from the text never occurs. -/
theorem findLitFrom_none {c : Char} (pr : Str) :
    ∀ (s : Str) (k : Nat), c ∉ s → findLitFrom (c :: pr) s k = none := by
  intro s
  induction s with
  | nil => intro k _; rfl
  | cons a t ih =>
    intro k h
    simp only [List.mem_cons, not_or] at h
    obtain ⟨h1, h2⟩ := h
    have hfalse : lstartsWith (c :: pr) (a :: t) = false := by
      simp [lstartsWith, h1]
    rw [findLitFrom, hfalse]
    show findLitFrom (c :: pr) t (k + 1) = none
    exact ih (k + 1) h2

/-- `findLit` version of `findLitFrom_none`. -/
theorem findLit_none (c : Char) (pr s : Str) (h : c ∉ s) :
    findLit (c :: pr) s = none :=
  findLitFrom_none pr s 0 h

/-- Every string starts with itself. -/
theorem lstartsWith_append_self : ∀ (p x : Str), lstartsWith p (p ++ x) = true := by
  intro p
  induction p with
  | nil => intro x; rfl
  | cons c t ih =>
    intro x
    simp [lstartsWith, ih]

/-- Position of a literal planted right after a splice-free left part. -/
theorem findLitFrom_splice (c : Char) (pr : Str) :
    ∀ (pre rest : Str) (k : Nat), c ∉ pre → lstartsWith (c :: pr) rest = true →
      findLitFrom (c :: pr) (pre ++ rest) k = some (k + pre.length) := by
  intro pre
  induction pre with
  | nil =>
    intro rest k _ hr
    cases rest with
    | nil => exact absurd hr (by simp [lstartsWith])
    | cons r t =>
      show findLitFrom (c :: pr) (r :: t) k = some (k + 0)
      rw [findLitFrom, hr]
      simp
  | cons a pre' ih =>
    intro rest k h hr
    simp only [List.mem_cons, not_or] at h
    obtain ⟨h1, h2⟩ := h
    have hfalse : lstartsWith (c :: pr) (a :: (pre' ++ rest)) = false := by
      simp [lstartsWith, h1]
    show findLitFrom (c :: pr) (a :: (pre' ++ rest)) k = some (k + (pre'.length + 1))
    rw [findLitFrom, hfalse]
    show findLitFrom (c :: pr) (pre' ++ rest) (k + 1) = some (k + (pre'.length + 1))
    rw [ih rest (k + 1) h2 hr]
    congr 1
    omega

/-- `findLit` version of `findLitFrom_splice`. -/
theorem findLit_splice (c : Char) (pr pre rest : Str) (h : c ∉ pre)
    (hr : lstartsWith (c :: pr) rest = true) :
    findLit (c :: pr) (pre ++ rest) = some pre.length := by
  unfold findLit
  rw [findLitFrom_splice c pr pre rest 0 h hr]
  congr 1
  omega

/-- Without an opener the fenced substitution changes nothing. -/
theorem subFencedAux_id (s : Str) (h : findLit fenceLit s = none) :
    ∀ f, subFencedAux f s = s := by
  intro f
  cases f with
  | zero => rfl
  | succ f =>
    rw [subFencedAux, h]

/-- Without the key literal the tool-calls substitution changes nothing. -/
theorem subTCAux_id (s : Str) (h : findLit tcColonLit s = none) :
    ∀ f, subTCAux f s = s := by
  intro f
  cases f with
  | zero => rfl
  | succ f =>
    rw [subTCAux, h]

/-- A brace-free string admits no stray-brace match. -/
theorem strayAtt_none (s : Str)
    (h : ∀ c ∈ s, c ≠ '\x7b' ∧ c ≠ '\x7d') : strayAtt s = none := by
  simp only [strayAtt]
  cases hd : s.drop ((s.takeWhile isPyWs).length) with
  | nil => rfl
  | cons c rest =>
    have hc : c ∈ s := by
      have h1 : c ∈ s.drop ((s.takeWhile isPyWs).length) := by
        rw [hd]
        exact List.mem_cons_self c rest
      exact (List.drop_sublist _ _).subset h1
    obtain ⟨hb1, hb2⟩ := h c hc
    simp [hb1, hb2]

/-- A brace-free string passes the stray-brace substitution unchanged. -/
theorem subStrayAux_id : ∀ (f : Nat) (b : Bool) (s : Str),
    (∀ c ∈ s, c ≠ '\x7b' ∧ c ≠ '\x7d') → subStrayAux f b s = s := by
  intro f
  induction f with
  | zero => intro b s _; rfl
  | succ f ih =>
    intro b s h
    cases s with
    | nil => rfl
    | cons c t =>
      have ht : ∀ c' ∈ t, c' ≠ '\x7b' ∧ c' ≠ '\x7d' :=
        fun c' hc' => h c' (List.mem_cons_of_mem _ hc')
      cases b with
      | false =>
        show c :: subStrayAux f (c = '\n') t = c :: t
        rw [ih (c = '\n') t ht]
      | true =>
        rw [subStrayAux]
        simp only [if_true, strayAtt_none (c :: t) h]
        show c :: subStrayAux f (c = '\n') t = c :: t
        rw [ih (c = '\n') t ht]

/-- One step of the fenced substitution when opener and closer are found. -/
theorem subFencedAux_succ_some (f : Nat) (s : Str) (i : Nat)
    (h : findLit fenceLit s = some i) (j : Nat)
    (h2 : findLit ("```".toList) (s.drop (i + 7)) = some j) :
    subFencedAux (f + 1) s =
      s.take i ++ subFencedAux f ((s.drop (i + 7)).drop (j + 3)) := by
  rw [subFencedAux, h]
  show (match findLit ("```".toList) (s.drop (i + 7)) with
    | none => s
    | some j => s.take i ++ subFencedAux f ((s.drop (i + 7)).drop (j + 3))) =
    s.take i ++ subFencedAux f ((s.drop (i + 7)).drop (j + 3))
  rw [h2]

/-- Removal of one complete fenced block flanked by backtick-free text. -/
theorem subFenced_splice (pre mid post : Str)
    (hpre : '\x60' ∉ pre) (hmid : '\x60' ∉ mid) (hpost : '\x60' ∉ post) :
    subFenced (pre ++ (fenceLit ++ (mid ++ ("```".toList ++ post)))) =
      pre ++ post := by
  have hfind1 : findLit fenceLit
      (pre ++ (fenceLit ++ (mid ++ ("```".toList ++ post)))) = some pre.length :=
    findLit_splice '\x60' ("``json".toList) pre _ hpre
      (lstartsWith_append_self fenceLit (mid ++ ("```".toList ++ post)))
  have hdrop1 : (pre ++ (fenceLit ++ (mid ++ ("```".toList ++ post)))).drop
      (pre.length + 7) = mid ++ ("```".toList ++ post) := by
    have h1 : pre ++ (fenceLit ++ (mid ++ ("```".toList ++ post))) =
        (pre ++ fenceLit) ++ (mid ++ ("```".toList ++ post)) := by
      rw [List.append_assoc]
    have h2 : pre.length + 7 = (pre ++ fenceLit).length := by
      rw [List.length_append]
      rfl
    rw [h1, h2, List.drop_left]
  have hfind2 : findLit ("```".toList) (mid ++ ("```".toList ++ post)) =
      some mid.length :=
    findLit_splice '\x60' ("``".toList) mid _ hmid
      (lstartsWith_append_self ("```".toList) post)
  have hdrop2 : (mid ++ ("```".toList ++ post)).drop (mid.length + 3) = post := by
    have h1 : mid ++ ("```".toList ++ post) = (mid ++ "```".toList) ++ post := by
      rw [List.append_assoc]
    have h2 : mid.length + 3 = (mid ++ "```".toList).length := by
      rw [List.length_append]
      rfl
    rw [h1, h2, List.drop_left]
  have htake : (pre ++ (fenceLit ++ (mid ++ ("```".toList ++ post)))).take
      pre.length = pre := List.take_left pre _
  unfold subFenced
  rw [subFencedAux_succ_some _ _ pre.length hfind1 mid.length
    (by rw [hdrop1]; exact hfind2)]
  rw [htake, hdrop1, hdrop2,
    subFencedAux_id post (findLit_none '\x60' ("``json".toList) post hpost) _]

/-- C9, counterexample: a final assistant message that is nothing but a
fenced tool-call block is displayed raw — every cleanup pass empties the
text, so `clean_response` falls back to the original content, fenced block
and `tool_calls` key included. -/
theorem c9_clean_response_counterexample :
    clean_response c9RawToolCall = c9RawToolCall ∧
    (findLit fenceLit c9RawToolCall).isSome = true ∧
    (findLit tcKeyLit c9RawToolCall).isSome = true :=
  ⟨rfl, rfl, rfl⟩

/-- C9 (amended): removal of protocol artifacts is guaranteed only for the
shape the model is instructed to emit — one complete lowercase-fenced json
block embedded in backtick-, quote- and brace-free surrounding text.
There, when the stripped surrounding text is non-empty, `clean_response`
returns exactly it, free of any ` ```json ` opener and `"tool_calls":`
key; the stored message is untouched (the transform is a pure function of
the displayed copy).  Outside this shape artifacts can survive: an
unclosed fence opener and a `tool_calls` key without a bracketed array
pass through unchanged, and when stripping leaves nothing the raw content
is displayed unchanged, as the counterexample shows. -/
theorem c9_clean_response_strips (pre mid post : Str)
    (hpre : ∀ c ∈ pre, c ≠ '\x60' ∧ c ≠ '"' ∧ c ≠ '\x7b' ∧ c ≠ '\x7d')
    (hmid : '\x60' ∉ mid)
    (hpost : ∀ c ∈ post, c ≠ '\x60' ∧ c ≠ '"' ∧ c ≠ '\x7b' ∧ c ≠ '\x7d')
    (hne : pyStrip (pre ++ post) ≠ []) :
    (clean_response (pre ++ (fenceLit ++ (mid ++ ("```".toList ++ post)))) =
      pyStrip (pre ++ post) ∧
    findLit fenceLit (pyStrip (pre ++ post)) = none ∧
    findLit tcColonLit (pyStrip (pre ++ post)) = none) ∧
    clean_response unclosedFence = unclosedFence ∧
    clean_response bareKey = bareKey := by
  refine ⟨?_, rfl, rfl⟩
  have hpre60 : '\x60' ∉ pre := fun h => (hpre _ h).1 rfl
  have hpost60 : '\x60' ∉ post := fun h => (hpost _ h).1 rfl
  have hs1 : subFenced (pre ++ (fenceLit ++ (mid ++ ("```".toList ++ post)))) =
      pre ++ post := subFenced_splice pre mid post hpre60 hmid hpost60
  have hchars : ∀ c ∈ pyStrip (pre ++ post),
      c ≠ '\x60' ∧ c ≠ '"' ∧ c ≠ '\x7b' ∧ c ≠ '\x7d' := by
    intro c hc
    rcases List.mem_append.mp (mem_pyStrip hc) with h | h
    · exact hpre c h
    · exact hpost c h
  have hfl : findLit fenceLit (pyStrip (pre ++ post)) = none :=
    findLit_none '\x60' ("``json".toList) _ (fun h => (hchars _ h).1 rfl)
  have htc : findLit tcColonLit (pyStrip (pre ++ post)) = none :=
    findLit_none '"' ("tool_calls\":".toList) _ (fun h => (hchars _ h).2.1 rfl)
  have hsub2 : subToolCalls (pyStrip (pre ++ post)) = pyStrip (pre ++ post) :=
    subTCAux_id _ htc _
  have hsub3 : subStray (pyStrip (pre ++ post)) = pyStrip (pre ++ post) :=
    subStrayAux_id _ _ _
      (fun c hc => ⟨(hchars c hc).2.2.1, (hchars c hc).2.2.2⟩)
  have hfalse : (pyStrip (pre ++ post)).isEmpty = false := by
    cases hp : pyStrip (pre ++ post) with
    | nil => exact absurd hp hne
    | cons a b => rfl
  refine ⟨?_, hfl, htc⟩
  simp only [clean_response]
  rw [hs1, hsub2, pyStrip_idem, hsub3, pyStrip_idem, hfalse]
  simp

/-- Witness for `c9_clean_response_strips`: an answer followed by one
fenced tool-call block displays as just the answer. -/
theorem c9_clean_response_strips_witness :
    clean_response ("The answer is 5. ".toList ++ (fenceLit ++
      ("\n\x7b\"tool_calls\": []\x7d\n".toList ++ ("```".toList ++ ([] : Str))))) =
      pyStrip ("The answer is 5. ".toList ++ ([] : Str)) :=
  (c9_clean_response_strips ("The answer is 5. ".toList)
    ("\n\x7b\"tool_calls\": []\x7d\n".toList) [] (by decide) (by decide)
    (by decide) (by decide)).1.1

end LlamaStarter
